import Mathlib

/-!
Verification of the adrenaline RAG retrieval pipeline.

Shallow embedding of:
  * `src/adrenaline/api/patients/rag.py` (ChromaManager.search,
    RAGManager.retrieve_relevant_notes, module-level retrieve_relevant_notes),
  * `src/backend/api/patients/rag.py` (MilvusManager.search),
  * `src/backend/clinical_ner_service/api/main.py` (chunk_text, perform_ner),
  * `src/backend/services/clinical_ner_service/api/routes.py`
    (the `/extract_entities` endpoint called by NERManager).

Modelling conventions:
  * Python floats are modelled as exact integers (`Int`): every claim
    settled here depends only on comparisons (ordering, equality) between
    scores, never on particular float values, and `Int` carries the same
    linear-order reasoning without float rounding.
  * Python strings are modelled as `String`; where Python index arithmetic
    matters (chunking) texts are `List Char` with Python slice semantics.
  * Remote ML inference (the embedding model, MedCAT entity extraction)
    is abstracted as a function parameter; HTTP failure of a service call
    (`raise_for_status`, timeouts) is an `Except Unit` error.
  * Python's `list.sort` (Timsort) is stable: elements whose keys compare
    equal keep their original relative order.  `stableSortLe` below is a
    stable insertion sort and therefore produces the identical output list.
    `stableSortLe le` keeps an already-placed element `b` in front of a
    newly inserted element `a` exactly when `le b a`.
-/

namespace Adrenaline

/-! ### Stable sorting (model of Python `list.sort`) -/

def insertLe {α : Type} (le : α → α → Bool) (a : α) : List α → List α
  | [] => [a]
  | b :: bs => if le b a then b :: insertLe le a bs else a :: b :: bs

def stableSortLe {α : Type} (le : α → α → Bool) (l : List α) : List α :=
  l.foldl (fun acc a => insertLe le a acc) []

/-! ### Python string primitives (`text[s:e]`, `str.rfind`) -/

/-- Python slice `text[s:e]` for `0 ≤ s ≤ e` (as used by `chunk_text`). -/
def pySlice (s e : Nat) (l : List Char) : List Char :=
  (l.drop s).take (e - s)

/-- Python `text.rfind(c, s, e)`: the largest index `i` with `s ≤ i < min e len`
and `text[i] = c`, or `-1` when there is none. -/
def pyRfind (c : Char) (s e : Nat) (l : List Char) : Int :=
  match ((List.range (min e l.length)).filter
      (fun i => decide (s ≤ i) && (l[i]? == some c))).getLast? with
  | some i => (i : Int)
  | none => -1

/-! ### `chunk_text` and `perform_ner`
(`src/backend/clinical_ner_service/api/main.py`, lines 68-99 and 101-146)

The Python `while start < len(text)` loop is embedded with explicit fuel;
`chunkTextGo maxLength text fuel start` returns `none` when the fuel is
exhausted before the loop finishes.  `chunk_text` runs the loop with
`text.length + 1` fuel, which is proved sufficient whenever
`max_length ≥ 1` (claim C10); for `max_length = 0` the loop never
terminates, which shows as `none` for every amount of fuel. -/

def chunkTextGo (maxLength : Nat) (text : List Char) : Nat → Nat → Option (List (List Char × Nat))
  | 0, _ => none
  | fuel + 1, start =>
    if start < text.length then
      -- end = start + max_length
      let e := start + maxLength
      -- if end >= len(text): chunks.append((text[start:], start)); break
      if text.length ≤ e then some [(text.drop start, start)]
      else
        -- last_period = text.rfind(".", start, end); last_space = text.rfind(" ", start, end)
        let lastPeriod := pyRfind '.' start e text
        let lastSpace := pyRfind ' ' start e text
        -- chunk_end = max(last_period, last_space)
        let chunkEnd0 := max lastPeriod lastSpace
        -- if chunk_end == -1 or chunk_end <= start: chunk_end = end
        let chunkEnd := if chunkEnd0 = -1 ∨ chunkEnd0 ≤ (start : Int) then e else chunkEnd0.toNat
        -- chunks.append((text[start:chunk_end], start)); start = chunk_end
        match chunkTextGo maxLength text fuel chunkEnd with
        | none => none
        | some rest => some ((pySlice start chunkEnd text, start) :: rest)
    else some []

def chunk_text (text : List Char) (maxLength : Nat) : Option (List (List Char × Nat)) :=
  chunkTextGo maxLength text (text.length + 1) 0

/-- One aggregated entity produced by the HF token-classification pipeline
(the `Entity` response model of `clinical_ner_service/api/main.py`).
The Python field `end` is a Lean keyword, hence the guillemets. -/
structure NerSpan where
  entity_group : String
  word : String
  start : Nat
  «end» : Nat
  score : Int
deriving DecidableEq

/-- Model of `perform_ner` (`clinical_ner_service/api/main.py`, lines 101-146): chunk the
text with the default `max_length = 512`, run the (abstract) NER pipeline on
each chunk, and shift each entity's `start`/`end` by the chunk's offset.
The HF pipeline itself is external ML inference, abstracted as `pipe`. -/
def perform_ner (pipe : List Char → List NerSpan) (text : List Char) : Option (List NerSpan) :=
  match chunk_text text 512 with
  | none => none
  | some chunks =>
    some (chunks.flatMap (fun p =>
      (pipe p.1).map (fun r => { r with start := r.start + p.2, «end» := r.«end» + p.2 })))

/-! ### The `/extract_entities` NER service and `NERManager`
(`src/backend/services/clinical_ner_service/api/routes.py` and
`src/adrenaline/api/patients/rag.py`, lines 40-58) -/

/-- A MedCAT entity as carried by the `/extract_entities` response
(mirrored client-side by `Entity` in `src/backend/api/patients/data.py`).
The fields `type_ids`, `types`, `context_similarity`, `icd10`, `ontologies`,
`snomed`, `id` and `meta_anns` are elided: no claim depends on them, and they
sit inside the `entities` array, never among the response's top-level keys. -/
structure MedEntity where
  pretty_name : String
  cui : String
  source_value : String
  detected_name : String
  acc : Int
  start : Nat
  «end» : Nat
deriving DecidableEq

/-- A JSON value, as produced by `response.json()` in `httpx`. -/
inductive Json where
  | str : String → Json
  | num : Int → Json
  | arr : List Json → Json
  | obj : List (String × Json) → Json

/-- Python `dict.keys()` on a parsed JSON object. -/
def Json.keys : Json → List String
  | .obj kvs => kvs.map Prod.fst
  | _ => []

def MedEntity.toJson (e : MedEntity) : Json :=
  .obj [("pretty_name", .str e.pretty_name), ("cui", .str e.cui),
    ("source_value", .str e.source_value), ("detected_name", .str e.detected_name),
    ("acc", .num e.acc), ("start", .num e.start), ("end", .num e.«end»)]

/-- The JSON body served by the `/extract_entities` route:
`NERResponse(text=text, entities=medcat_entities)` — an object whose top-level
keys are exactly `"text"` and `"entities"` (`routes.py`, line 139). -/
def nerResponseJson (text : String) (entities : List MedEntity) : Json :=
  .obj [("text", .str text), ("entities", .arr (entities.map MedEntity.toJson))]

namespace NERManager

/-- Model of `NERManager.extract_entities`: POST the text to `/extract_entities` and
return `response.json()`.  The MedCAT extraction itself (`cat.get_entities`)
is external ML inference, abstracted as `ner`; a failing or timed-out service
call (`raise_for_status` on a 5xx, `httpx` timeout) is `Except.error ()`. -/
def extract_entities (ner : String → Except Unit (List MedEntity)) (text : String) :
    Except Unit Json :=
  match ner text with
  | .error e => .error e
  | .ok entities => .ok (nerResponseJson text entities)

end NERManager

/-! ### ChromaDB and Milvus vector search -/

/-- A record stored in the ChromaDB collection: an embedding plus the metadata
and document written at ingestion time.  The stored `patient_id` metadata is
the string `str(patient_id)` of an integer id; since `int ∘ str = id` on
integers, it is modelled directly as the integer. -/
structure ChromaRecord where
  embedding : List Int
  patient_id : Int
  note_type : String
  document : String
  timestamp : Int
  encounter_id : String
deriving DecidableEq

/-- One element of the list built by `ChromaManager.search`
(`src/adrenaline/api/patients/rag.py`, lines 116-133): `distance` holds
`1 - raw_distance`, the code's similarity score. -/
structure ChromaHit where
  patient_id : Int
  note_type : String
  note_text : String
  timestamp : Int
  encounter_id : String
  distance : Int
deriving DecidableEq

/-- Squared-L2 distance, the `l2` space of both ChromaDB and Milvus. -/
def sqL2 (u v : List Int) : Int :=
  ((u.zip v).map (fun p => (p.1 - p.2) * (p.1 - p.2))).sum

/-- Model of `collection.query(query_embeddings=[v], n_results=n, where=w, ...)`:
metadata-filtered (filter-then-rank) nearest-neighbour search, returning the
`n` closest records together with their raw distances, closest first. -/
def chromaQuery (store : List ChromaRecord) (queryVector : List Int) (nResults : Nat)
    (whereClause : Option Int) : List (ChromaRecord × Int) :=
  let filtered : List ChromaRecord := match whereClause with
    | some p => store.filter (fun r => r.patient_id == p)
    | none => store
  let scored := filtered.map (fun r => (r, sqL2 queryVector r.embedding))
  (stableSortLe (fun x y => decide (x.2 ≤ y.2)) scored).take nResults

namespace ChromaManager

/-- Model of `ChromaManager.search` (`src/adrenaline/api/patients/rag.py`, lines 92-136).
`patientId` models the Python parameter `patient_id: int = None`; the where
clause is built with `{"patient_id": str(patient_id)} if patient_id else None`,
so a `None` or `0` patient id (both falsy) leaves the query unscoped. -/
def search (store : List ChromaRecord) (queryVector : List Int)
    (patientId : Option Int) (topK : Nat) : List ChromaHit :=
  let whereClause : Option Int := match patientId with
    | some p => if p = 0 then none else some p
    | none => none
  let results := chromaQuery store queryVector topK whereClause
  -- if not results["metadatas"][0]: return []
  if results.isEmpty then []
  else
    let filteredResults := results.map (fun rd =>
      { patient_id := rd.1.patient_id
        note_type := rd.1.note_type
        note_text := rd.1.document
        timestamp := rd.1.timestamp
        encounter_id := rd.1.encounter_id
        distance := 1 - rd.2 : ChromaHit })
    -- filtered_results.sort(key=lambda x: x["distance"], reverse=True)
    stableSortLe (fun x y => decide (y.distance ≤ x.distance)) filteredResults

end ChromaManager

/-- A record stored in the Milvus `patient_notes` collection. -/
structure MilvusRecord where
  embedding : List Int
  patient_id : Int
  note_id : String
deriving DecidableEq

/-- One hit returned by `MilvusManager.search`: `distance` is the raw L2
distance `hit.distance`, with no inversion. -/
structure MilvusHit where
  patient_id : Int
  note_id : String
  distance : Int
deriving DecidableEq

namespace MilvusManager

/-- Model of `MilvusManager.search` (`src/backend/api/patients/rag.py`, lines 119-153):
an unscoped nearest-neighbour search with `metric_type = "L2"` over the whole
collection; Milvus returns hits closest first (ascending raw L2 distance). -/
def search (store : List MilvusRecord) (queryVector : List Int) (topK : Nat) :
    List MilvusHit :=
  let scored := store.map (fun r => (r, sqL2 queryVector r.embedding))
  let ranked := (stableSortLe (fun x y => decide (x.2 ≤ y.2)) scored).take topK
  ranked.map (fun rd =>
    { patient_id := rd.1.patient_id, note_id := rd.1.note_id, distance := rd.2 })

end MilvusManager

/-! ### `RAGManager.retrieve_relevant_notes`
(`src/adrenaline/api/patients/rag.py`, lines 157-194) -/

/-- A search-result dict after `result["matching_entities"] = list(matching_entities)`.
`matching_entities` is `set(query_entities.keys()) & set(note_entities.keys())`;
Python iterates a set in unspecified order, so only its members (here kept in
the query-key order) and its cardinality are meaningful. -/
structure RankedHit where
  hit : ChromaHit
  matching_entities : List String
deriving DecidableEq

/-- The `for result in search_results` loop of `retrieve_relevant_notes`:
extract entities from each note (any service failure propagates), intersect
the top-level keys of the two parsed JSON responses, and keep the note only
when the intersection is non-empty. -/
def ragFilterNotes (nerX : String → Except Unit Json) (queryKeys : List String) :
    List ChromaHit → Except Unit (List RankedHit)
  | [] => .ok []
  | r :: rs =>
    match nerX r.note_text with
    | .error e => .error e
    | .ok noteEntities =>
      let matching := queryKeys.filter (fun k => noteEntities.keys.contains k)
      match ragFilterNotes nerX queryKeys rs with
      | .error e => .error e
      | .ok rest =>
        if matching.isEmpty then .ok rest else .ok (⟨r, matching⟩ :: rest)

namespace RAGManager

/-- Model of `RAGManager.retrieve_relevant_notes` (`src/adrenaline/api/patients/rag.py`,
lines 157-194): embed the query, vector-search scoped by `patient_id`, extract
entities from the query and every candidate, filter on key overlap, sort by
overlap size descending (`list.sort` is stable, so ties keep the similarity
order produced by `ChromaManager.search`), truncate to `top_k`.
`embed` abstracts `EmbeddingManager.get_embedding`. -/
def retrieve_relevant_notes (embed : String → List Int)
    (ner : String → Except Unit (List MedEntity)) (store : List ChromaRecord)
    (userQuery : String) (patientId : Int) (topK : Nat) :
    Except Unit (List RankedHit) :=
  let queryEmbedding := embed userQuery
  let searchResults := ChromaManager.search store queryEmbedding (some patientId) topK
  match NERManager.extract_entities ner userQuery with
  | .error e => .error e
  | .ok queryEntities =>
    match ragFilterNotes (NERManager.extract_entities ner) queryEntities.keys searchResults with
    | .error e => .error e
    | .ok filteredResults =>
      -- filtered_results.sort(key=lambda x: len(x.get("matching_entities", [])), reverse=True)
      -- return filtered_results[:top_k]
      .ok ((stableSortLe
        (fun x y => decide (y.matching_entities.length ≤ x.matching_entities.length))
        filteredResults).take topK)

end RAGManager

/-- The module-level `retrieve_relevant_notes` (`src/adrenaline/api/patients/rag.py`,
lines 236-276): plain vector search with no entity filtering; an empty search
result returns `[]` (after a warning log), not an error. -/
def retrieve_relevant_notes (embed : String → List Int) (store : List ChromaRecord)
    (userQuery : String) (patientId : Int) (topK : Nat) : List ChromaHit :=
  let searchResults := ChromaManager.search store (embed userQuery) (some patientId) topK
  if searchResults.isEmpty then [] else searchResults

/-- Python `str.lower()`, character-wise. -/
def pyLower (s : String) : String := ⟨s.data.map Char.toLower⟩

/-- Modelled from the spec: the normalized entity identity the specification
prescribes — "lower-cased canonical name, or ontology code when available"
(spec §3, §4.4 step 2). -/
def specEntityKey (e : MedEntity) : String :=
  if e.cui ≠ "" then e.cui else pyLower e.pretty_name

/-- Modelled from the spec: the overlap the specification prescribes — set
intersection of the two texts' entity sets under the normalized entity
identity `specEntityKey` (spec §3 and §4.4 step 2).  Used only to compare
the code's behaviour against the specified one. -/
def specEntityOverlap (queryEntities candidateEntities : List MedEntity) : List String :=
  (queryEntities.map specEntityKey).filter
    (fun k => (candidateEntities.map specEntityKey).contains k)

/-! ### Concrete inputs used by counterexamples and witnesses -/

def entChestPain : MedEntity := ⟨"Chest Pain", "C0008031", "chest pain", "chest~pain", 99, 16, 26⟩

def entAspirin : MedEntity := ⟨"Aspirin", "C0004057", "aspirin", "aspirin", 98, 39, 46⟩

def entDiabetes : MedEntity := ⟨"Diabetes", "C0011849", "diabetes", "diabetes", 97, 11, 19⟩

def entAspirinCap : MedEntity := ⟨"Aspirin", "", "Aspirin", "aspirin", 90, 0, 7⟩

def entAspirinLower : MedEntity := ⟨"aspirin", "", "aspirin", "aspirin", 90, 0, 7⟩

def entDiabetesPlain : MedEntity := ⟨"diabetes", "", "diabetes", "diabetes", 90, 11, 19⟩

/-- The spec's end-to-end scenario, patient 123: noteA about chest pain and
aspirin, noteB about diabetes with the strictly higher vector similarity
(squared-L2 distances 10 and 5 from the zero query vector, hence similarity
scores `1 - 10 = -9` and `1 - 5 = -4`; the spec quotes 0.9 and 0.95 — only
the strict ordering matters). -/
def noteA : ChromaRecord :=
  ⟨[1, 3], 123, "noteA", "Patient reports chest pain relieved by aspirin.", 1, "encA"⟩

def noteB : ChromaRecord := ⟨[1, 2], 123, "noteB", "History of diabetes.", 2, "encB"⟩

def exStore : List ChromaRecord := [noteA, noteB]

def exEmbed : String → List Int := fun _ => [0, 0]

/-- Entity extraction for the spec scenario: the query and noteA yield
{chest pain, aspirin}, noteB yields {diabetes}. -/
def exNer : String → Except Unit (List MedEntity) := fun t =>
  if t = "chest pain medication" then .ok [entChestPain, entAspirin]
  else if t = noteA.document then .ok [entChestPain, entAspirin]
  else if t = noteB.document then .ok [entDiabetes]
  else .ok []

/-- Same extraction, but the NER service fails on noteB's text. -/
def exNerFailB : String → Except Unit (List MedEntity) := fun t =>
  if t = noteB.document then .error () else exNer t

/-- Same extraction, but the NER service fails on noteA's text. -/
def exNerFailA : String → Except Unit (List MedEntity) := fun t =>
  if t = noteA.document then .error () else exNer t

def hitA : ChromaHit :=
  ⟨123, "noteA", "Patient reports chest pain relieved by aspirin.", 1, "encA", -9⟩

def hitB : ChromaHit := ⟨123, "noteB", "History of diabetes.", 2, "encB", -4⟩

/-- A store holding notes of two different patients, 7 and 3. -/
def scopeRec7 : ChromaRecord := ⟨[0], 7, "progress", "note of patient 7", 10, "enc7"⟩

def scopeRec3 : ChromaRecord := ⟨[1], 3, "progress", "note of patient 3", 11, "enc3"⟩

def scopeStore : List ChromaRecord := [scopeRec7, scopeRec3]

def hit7 : ChromaHit := ⟨7, "progress", "note of patient 7", 10, "enc7", 1⟩

/-- A single-patient store for the entity-normalization scenario. -/
def noteC : ChromaRecord := ⟨[0], 5, "noteC", "History of diabetes.", 3, "encC"⟩

def hitC : ChromaHit := ⟨5, "noteC", "History of diabetes.", 3, "encC", 1⟩

def c3Embed : String → List Int := fun _ => [0]

/-- Query entities {"Aspirin"} (capitalized, no ontology code), candidate note
entities {"diabetes"} — disjoint under any normalization. -/
def c3Ner : String → Except Unit (List MedEntity) := fun t =>
  if t = "aspirin please" then .ok [entAspirinCap]
  else if t = noteC.document then .ok [entDiabetesPlain]
  else .ok []

def mStore : List MilvusRecord := [⟨[1], 1, "m1"⟩, ⟨[2], 2, "m2"⟩]

def pipeEx : List Char → List NerSpan := fun _ => [⟨"Sign_symptom", "b", 1, 2, 1⟩]

end Adrenaline

namespace Adrenaline

theorem mem_insertLe {α : Type} {le : α → α → Bool} {a x : α} :
    ∀ {l : List α}, x ∈ insertLe le a l ↔ x = a ∨ x ∈ l
  | [] => by simp [insertLe]
  | b :: bs => by
    simp only [insertLe]
    split
    · simp only [List.mem_cons, mem_insertLe (l := bs)]
      tauto
    · simp only [List.mem_cons]

theorem pairwise_insertLe {α : Type} {le : α → α → Bool} {P : α → α → Prop} {a : α} :
    ∀ {l : List α}, l.Pairwise P →
      (∀ b ∈ l, le b a = true → P b a) →
      (∀ b ∈ l, le b a = false → P a b) →
      (∀ b ∈ l, ∀ c ∈ l, le b a = false → P b c → P a c) →
      (insertLe le a l).Pairwise P
  | [], _, _, _, _ => List.pairwise_singleton P a
  | b :: bs, h, hkeep, hplace, htrans => by
    rw [List.pairwise_cons] at h
    obtain ⟨hb, hbs⟩ := h
    simp only [insertLe]
    cases hba : le b a with
    | true =>
      apply List.pairwise_cons.mpr
      constructor
      · intro x hx
        rcases mem_insertLe.mp hx with rfl | hx
        · exact hkeep b (by simp) hba
        · exact hb x hx
      · exact pairwise_insertLe hbs
          (fun c hc h => hkeep c (by simp [hc]) h)
          (fun c hc h => hplace c (by simp [hc]) h)
          (fun c hc d hd h hcd => htrans c (by simp [hc]) d (by simp [hd]) h hcd)
    | false =>
      apply List.pairwise_cons.mpr
      constructor
      · intro x hx
        rcases List.mem_cons.mp hx with rfl | hx
        · exact hplace x (by simp) hba
        · exact htrans b (by simp) x (by simp [hx]) hba (hb x hx)
      · exact List.pairwise_cons.mpr ⟨hb, hbs⟩

theorem mem_foldl_insertLe {α : Type} {le : α → α → Bool} {x : α} :
    ∀ (l acc : List α),
      (x ∈ l.foldl (fun acc a => insertLe le a acc) acc ↔ x ∈ acc ∨ x ∈ l)
  | [], acc => by simp
  | a :: l, acc => by
    simp only [List.foldl_cons]
    rw [mem_foldl_insertLe l (insertLe le a acc)]
    simp [mem_insertLe]
    tauto

theorem mem_stableSortLe {α : Type} {le : α → α → Bool} {x : α} {l : List α} :
    x ∈ stableSortLe le l ↔ x ∈ l := by
  unfold stableSortLe
  rw [mem_foldl_insertLe]
  simp

theorem pairwise_foldl_insertLe {α : Type} {le : α → α → Bool}
    (htot : ∀ a b, le a b = true ∨ le b a = true)
    (htrans : ∀ a b c, le a b = true → le b c = true → le a c = true) :
    ∀ (l acc : List α), acc.Pairwise (fun x y => le x y = true) →
      (l.foldl (fun acc a => insertLe le a acc) acc).Pairwise (fun x y => le x y = true)
  | [], _, hacc => hacc
  | a :: l, acc, hacc => by
    simp only [List.foldl_cons]
    apply pairwise_foldl_insertLe htot htrans l
    apply pairwise_insertLe hacc
    · intro b _ h
      exact h
    · intro b _ h
      rcases htot a b with h' | h'
      · exact h'
      · rw [h] at h'
        exact absurd h' (by simp)
    · intro b _ c _ h hbc
      rcases htot a b with h' | h'
      · exact htrans a b c h' hbc
      · rw [h] at h'
        exact absurd h' (by simp)

/-- Sortedness of the stable sort, for a total transitive boolean comparison. -/
theorem pairwise_stableSortLe {α : Type} {le : α → α → Bool}
    (htot : ∀ a b, le a b = true ∨ le b a = true)
    (htrans : ∀ a b c, le a b = true → le b c = true → le a c = true)
    (l : List α) :
    (stableSortLe le l).Pairwise (fun x y => le x y = true) :=
  pairwise_foldl_insertLe htot htrans l [] List.Pairwise.nil

/-- Stability of the stable sort as a lexicographic sortedness statement:
sorting a list that is already sorted by a secondary key `k₂` (descending)
with primary key `k₁` (descending) yields a list sorted by the lexicographic
(`k₁` desc, then `k₂` desc) order. -/
theorem lex_foldl_insertLe {α : Type} {k₁ : α → Nat} {k₂ : α → Int} :
    ∀ (l acc : List α),
      acc.Pairwise (fun x y => k₁ y < k₁ x ∨ (k₁ x = k₁ y ∧ k₂ y ≤ k₂ x)) →
      (∀ b ∈ acc, ∀ x ∈ l, k₂ x ≤ k₂ b) →
      l.Pairwise (fun x y => k₂ y ≤ k₂ x) →
      (l.foldl (fun acc a => insertLe (fun x y => decide (k₁ y ≤ k₁ x)) a acc) acc).Pairwise
        (fun x y => k₁ y < k₁ x ∨ (k₁ x = k₁ y ∧ k₂ y ≤ k₂ x))
  | [], _, hacc, _, _ => hacc
  | a :: l, acc, hacc, hcross, hl => by
    rw [List.pairwise_cons] at hl
    obtain ⟨ha, hl⟩ := hl
    simp only [List.foldl_cons]
    apply lex_foldl_insertLe l (insertLe _ a acc)
    · apply pairwise_insertLe hacc
      · intro b hb h
        have h' : k₁ a ≤ k₁ b := of_decide_eq_true h
        rcases Nat.lt_or_ge (k₁ a) (k₁ b) with h'' | h''
        · exact Or.inl h''
        · exact Or.inr ⟨Nat.le_antisymm h'' h', hcross b hb a (by simp)⟩
      · intro b _ h
        have h' : ¬ k₁ a ≤ k₁ b := of_decide_eq_false h
        exact Or.inl (Nat.lt_of_not_le h')
      · intro b _ c _ h hbc
        have h' : ¬ k₁ a ≤ k₁ b := of_decide_eq_false h
        rcases hbc with h'' | h''
        · exact Or.inl (Nat.lt_trans h'' (Nat.lt_of_not_le h'))
        · exact Or.inl (Nat.lt_of_le_of_lt (Nat.le_of_eq h''.1.symm) (Nat.lt_of_not_le h'))
    · intro b hb x hx
      rcases mem_insertLe.mp hb with rfl | hb
      · exact ha x hx
      · exact hcross b hb x (by simp [hx])
    · exact hl

/-- Python's stable `list.sort(key=k₁, reverse=True)` applied to a list already
sorted by `k₂` descending produces a list sorted by (`k₁` desc, ties `k₂` desc). -/
theorem lex_stableSortLe {α : Type} (k₁ : α → Nat) (k₂ : α → Int) {l : List α}
    (hl : l.Pairwise (fun x y => k₂ y ≤ k₂ x)) :
    (stableSortLe (fun x y => decide (k₁ y ≤ k₁ x)) l).Pairwise
      (fun x y => k₁ y < k₁ x ∨ (k₁ x = k₁ y ∧ k₂ y ≤ k₂ x)) :=
  lex_foldl_insertLe l [] List.Pairwise.nil (by simp) hl

/-! ### Lemmas about `chunk_text` -/

theorem pyRfind_lt (c : Char) (s e : Nat) (l : List Char) : pyRfind c s e l < (e : Int) := by
  unfold pyRfind
  split
  next i h =>
    have hi := List.mem_of_getLast?_eq_some h
    have hr := List.mem_range.mp (List.mem_filter.mp hi).1
    have : i < e := Nat.lt_of_lt_of_le hr (Nat.min_le_left _ _)
    exact_mod_cast this
  next h => omega

/-- Exactness: `text[s : s + len(text[s:e])] = text[s:e]` — a produced slice is recovered
exactly from its offset and its length. -/
theorem pySlice_exact (s e : Nat) (l : List Char) :
    pySlice s (s + (pySlice s e l).length) l = pySlice s e l := by
  unfold pySlice
  rw [Nat.add_sub_cancel_left, List.length_take]
  calc (l.drop s).take (min (e - s) (l.drop s).length)
      = ((l.drop s).take ((l.drop s).length)).take (e - s) := by
        rw [List.take_take, Nat.min_comm]
    _ = (l.drop s).take (e - s) := by rw [List.take_length]

/-- Same recovery property for the final chunk `text[start:]`. -/
theorem pySlice_drop (s : Nat) (l : List Char) :
    pySlice s (s + (l.drop s).length) l = l.drop s := by
  unfold pySlice
  rw [Nat.add_sub_cancel_left, List.take_length]

/-- If a chunk is recovered exactly from its offset, then every chunk-local
span, shifted by the chunk's offset, denotes the same characters in the
original text. -/
theorem pySlice_within {text c : List Char} {off : Nat}
    (hc : pySlice off (off + c.length) text = c) (ls le₂ : Nat) (hle : le₂ ≤ c.length) :
    pySlice (off + ls) (off + le₂) text = pySlice ls le₂ c := by
  have hX : (text.drop off).take c.length = c := by
    unfold pySlice at hc
    rwa [Nat.add_sub_cancel_left] at hc
  unfold pySlice
  rw [show off + le₂ - (off + ls) = le₂ - ls by omega]
  rw [← List.drop_drop, ← hX, List.drop_take, List.take_take,
    Nat.min_eq_left (by omega)]

theorem chunkTextGo_slices {maxLength : Nat} {text : List Char} :
    ∀ {fuel start : Nat} {cs : List (List Char × Nat)},
      chunkTextGo maxLength text fuel start = some cs →
      ∀ p ∈ cs, pySlice p.2 (p.2 + p.1.length) text = p.1
  | 0, _, _, h => by simp [chunkTextGo] at h
  | fuel + 1, start, cs, h => by
    simp only [chunkTextGo] at h
    split at h
    · split at h
      · obtain rfl : [(text.drop start, start)] = cs := by
          simpa using h
        intro p hp
        rcases List.mem_singleton.mp hp with rfl
        exact pySlice_drop start text
      · split at h
        · exact absurd h (by simp)
        · next rest hrest =>
          obtain rfl : _ :: rest = cs := by simpa using h
          intro p hp
          rcases List.mem_cons.mp hp with rfl | hp
          · exact pySlice_exact _ _ _
          · exact chunkTextGo_slices hrest p hp
    · obtain rfl : ([] : List (List Char × Nat)) = cs := by simpa using h
      intro p hp
      simp at hp

theorem chunkTextGo_total {maxLength : Nat} (hml : 1 ≤ maxLength) (text : List Char) :
    ∀ (fuel start : Nat), text.length - start < fuel →
      ∃ cs, chunkTextGo maxLength text fuel start = some cs ∧
        ∀ p ∈ cs, p.1 ≠ [] ∧ p.1.length ≤ maxLength
  | 0, start, h => absurd h (by omega)
  | fuel + 1, start, h => by
    by_cases hstart : start < text.length
    · by_cases hend : text.length ≤ start + maxLength
      · refine ⟨[(text.drop start, start)], ?_, ?_⟩
        · simp only [chunkTextGo]
          rw [if_pos hstart, if_pos hend]
        · intro p hp
          rcases List.mem_singleton.mp hp with rfl
          constructor
          · simp only [ne_eq, List.drop_eq_nil_iff]
            omega
          · simp only [List.length_drop]
            omega
      · set chunkEnd0 := max (pyRfind '.' start (start + maxLength) text)
          (pyRfind ' ' start (start + maxLength) text) with hce0
        set chunkEnd : Nat :=
          if chunkEnd0 = -1 ∨ chunkEnd0 ≤ (start : Int) then start + maxLength
          else chunkEnd0.toNat with hce
        have hce0lt : chunkEnd0 < ((start + maxLength : Nat) : Int) :=
          max_lt (pyRfind_lt _ _ _ _) (pyRfind_lt _ _ _ _)
        have hlow : start < chunkEnd := by
          rw [hce]
          split
          · omega
          · next hc => omega
        have hhigh : chunkEnd ≤ start + maxLength := by
          rw [hce]
          split
          · omega
          · omega
        obtain ⟨rest, hrest, hprops⟩ :=
          chunkTextGo_total hml text fuel chunkEnd (by omega)
        refine ⟨(pySlice start chunkEnd text, start) :: rest, ?_, ?_⟩
        · simp only [chunkTextGo]
          rw [if_pos hstart, if_neg hend, ← hce0, ← hce, hrest]
        · intro p hp
          rcases List.mem_cons.mp hp with rfl | hp
          · constructor
            · have hlen : (pySlice start chunkEnd text).length = min (chunkEnd - start) (text.length - start) := by
                unfold pySlice
                rw [List.length_take, List.length_drop]
              have : 0 < (pySlice start chunkEnd text).length := by
                rw [hlen]
                omega
              exact List.ne_nil_of_length_pos this
            · unfold pySlice
              rw [List.length_take, List.length_drop]
              omega
          · exact hprops p hp
    · exact ⟨[], by simp only [chunkTextGo]; rw [if_neg hstart], by simp⟩

/-- With `max_length = 0` the loop in `chunk_text` makes no progress on the
one-character text `"a"`: no amount of fuel makes it terminate. -/
theorem chunkTextGo_zero_fuel : ∀ fuel, chunkTextGo 0 ['a'] fuel 0 = none
  | 0 => rfl
  | fuel + 1 => by
    have ih := chunkTextGo_zero_fuel fuel
    show (match chunkTextGo 0 ['a'] fuel 0 with
      | none => none
      | some rest => some ((pySlice 0 0 ['a'], 0) :: rest)) = none
    rw [ih]

/-! ### Lemmas about the vector searches and the RAG filter loop -/

theorem chromaSearch_sorted (store : List ChromaRecord) (qv : List Int)
    (patientId : Option Int) (topK : Nat) :
    (ChromaManager.search store qv patientId topK).Pairwise
      (fun x y => y.distance ≤ x.distance) := by
  simp only [ChromaManager.search]
  split
  · exact List.Pairwise.nil
  · refine List.Pairwise.imp (fun h => of_decide_eq_true h)
      (pairwise_stableSortLe ?_ ?_ _)
    · intro a b
      rcases le_total b.distance a.distance with h | h
      · exact Or.inl (decide_eq_true h)
      · exact Or.inr (decide_eq_true h)
    · intro a b c hab hbc
      exact decide_eq_true (le_trans (of_decide_eq_true hbc) (of_decide_eq_true hab))

theorem chromaQuery_where_mem {store : List ChromaRecord} {qv : List Int} {n : Nat}
    {p : Int} : ∀ rd ∈ chromaQuery store qv n (some p), rd.1.patient_id = p := by
  intro rd hrd
  simp only [chromaQuery] at hrd
  have h1 := List.mem_of_mem_take hrd
  rw [mem_stableSortLe] at h1
  obtain ⟨r, hr, rfl⟩ := List.mem_map.mp h1
  have := List.mem_filter.mp hr
  simpa using this.2

theorem chromaSearch_mem {store : List ChromaRecord} {qv : List Int}
    {patientId : Option Int} {topK : Nat} {h : ChromaHit}
    (hmem : h ∈ ChromaManager.search store qv patientId topK) :
    ∃ rd ∈ chromaQuery store qv topK
      (match patientId with
        | some p => if p = 0 then none else some p
        | none => none),
      h = { patient_id := rd.1.patient_id, note_type := rd.1.note_type,
            note_text := rd.1.document, timestamp := rd.1.timestamp,
            encounter_id := rd.1.encounter_id, distance := 1 - rd.2 } := by
  simp only [ChromaManager.search] at hmem
  split at hmem
  · simp at hmem
  · rw [mem_stableSortLe] at hmem
    obtain ⟨rd, hrd, rfl⟩ := List.mem_map.mp hmem
    exact ⟨rd, hrd, rfl⟩

theorem milvusSearch_sorted (store : List MilvusRecord) (qv : List Int) (topK : Nat) :
    (MilvusManager.search store qv topK).Pairwise
      (fun x y => x.distance ≤ y.distance) := by
  simp only [MilvusManager.search]
  apply List.Pairwise.map
  intro a b h
  exact of_decide_eq_true h
  apply List.Pairwise.sublist (List.take_sublist _ _)
  refine pairwise_stableSortLe ?_ ?_ _
  · intro a b
    rcases le_total a.2 b.2 with h | h
    · exact Or.inl (decide_eq_true h)
    · exact Or.inr (decide_eq_true h)
  · intro a b c hab hbc
    exact decide_eq_true (le_trans (of_decide_eq_true hab) (of_decide_eq_true hbc))

theorem ragFilterNotes_mem {nerX : String → Except Unit Json} {qk : List String} :
    ∀ {l : List ChromaHit} {out : List RankedHit},
      ragFilterNotes nerX qk l = .ok out → ∀ x ∈ out, x.hit ∈ l
  | [], out, h => by
    simp only [ragFilterNotes] at h
    obtain rfl : ([] : List RankedHit) = out := by simpa using h
    simp
  | r :: rs, out, h => by
    simp only [ragFilterNotes] at h
    split at h
    · exact absurd h (by simp)
    · split at h
      · exact absurd h (by simp)
      · next rest hrest =>
        split at h
        · obtain rfl : rest = out := by simpa using h
          intro x hx
          exact List.mem_cons_of_mem _ (ragFilterNotes_mem hrest x hx)
        · obtain rfl : _ :: rest = out := by simpa using h
          intro x hx
          rcases List.mem_cons.mp hx with rfl | hx
          · simp
          · exact List.mem_cons_of_mem _ (ragFilterNotes_mem hrest x hx)

theorem ragFilterNotes_pairwise {nerX : String → Except Unit Json} {qk : List String} :
    ∀ {l : List ChromaHit} {out : List RankedHit},
      l.Pairwise (fun x y => y.distance ≤ x.distance) →
      ragFilterNotes nerX qk l = .ok out →
      out.Pairwise (fun a b => b.hit.distance ≤ a.hit.distance)
  | [], out, _, h => by
    simp only [ragFilterNotes] at h
    obtain rfl : ([] : List RankedHit) = out := by simpa using h
    exact List.Pairwise.nil
  | r :: rs, out, hl, h => by
    rw [List.pairwise_cons] at hl
    obtain ⟨hr, hrs⟩ := hl
    simp only [ragFilterNotes] at h
    split at h
    · exact absurd h (by simp)
    · split at h
      · exact absurd h (by simp)
      · next rest hrest =>
        split at h
        · obtain rfl : rest = out := by simpa using h
          exact ragFilterNotes_pairwise hrs hrest
        · obtain rfl : _ :: rest = out := by simpa using h
          apply List.pairwise_cons.mpr
          refine ⟨?_, ragFilterNotes_pairwise hrs hrest⟩
          intro x hx
          exact hr x.hit (ragFilterNotes_mem hrest x hx)

theorem ragFilterNotes_total {nerX : String → Except Unit Json} (qk : List String) :
    ∀ {l : List ChromaHit}, (∀ r ∈ l, ∃ j, nerX r.note_text = .ok j) →
      ∃ out, ragFilterNotes nerX qk l = .ok out
  | [], _ => ⟨[], rfl⟩
  | r :: rs, hok => by
    obtain ⟨j, hj⟩ := hok r (by simp)
    obtain ⟨rest, hrest⟩ := ragFilterNotes_total qk (l := rs)
      (fun x hx => hok x (by simp [hx]))
    simp only [ragFilterNotes, hj]
    split
    · next e heq =>
        rw [hrest] at heq
        exact absurd heq (by simp)
    · next rest2 heq =>
        split
        · exact ⟨rest2, rfl⟩
        · exact ⟨_, rfl⟩

theorem ragFilterNotes_error {nerX : String → Except Unit Json} {qk : List String} :
    ∀ {l : List ChromaHit}, (∃ r ∈ l, nerX r.note_text = .error ()) →
      ragFilterNotes nerX qk l = .error ()
  | [], hbad => by simp at hbad
  | r :: rs, hbad => by
    simp only [ragFilterNotes]
    cases hr : nerX r.note_text with
    | error e => rfl
    | ok j =>
      obtain ⟨x, hx, hxerr⟩ := hbad
      rcases List.mem_cons.mp hx with rfl | hx
      · rw [hr] at hxerr
        exact absurd hxerr (by simp)
      · rw [ragFilterNotes_error ⟨x, hx, hxerr⟩]

/-! ### The claims -/

/-- Claim C1, counterexample: the scoping invariant fails as stated.  With the
falsy requested patient id `0`, `ChromaManager.search` builds no where clause
(`{"patient_id": str(patient_id)} if patient_id else None`) and runs unscoped:
over a store holding notes of patients 7 and 3 it returns patient 7's note,
whose `patient_id` differs from the requested one.  (`MilvusManager.search`
does not take a patient id at all; see C8's model of it.) -/
theorem c1_counterexample :
    hit7 ∈ ChromaManager.search scopeStore [0] (some 0) 5 ∧ hit7.patient_id ≠ 0 := by
  constructor
  · decide
  · decide

/-- Claim C1 (amended): when the requested `patient_id` is truthy (not `None`
and not `0`), every candidate returned by `ChromaManager.search` has
`patient_id` equal to the requested one — the where clause scopes the query.
For falsy patient ids, and for `MilvusManager.search` (which takes no patient
filter), the search runs unscoped across all patients. -/
theorem c1_scoping (store : List ChromaRecord) (qv : List Int) (p : Int) (topK : Nat)
    (hp : p ≠ 0) :
    ∀ h ∈ ChromaManager.search store qv (some p) topK, h.patient_id = p := by
  intro h hmem
  obtain ⟨rd, hrd, rfl⟩ := chromaSearch_mem hmem
  have hrd' : rd ∈ chromaQuery store qv topK (if p = 0 then none else some p) := hrd
  rw [if_neg hp] at hrd'
  simpa using chromaQuery_where_mem rd hrd'

/-- Witness for C1 (amended): requesting patient 7 over the two-patient store
returns exactly patient 7's note. -/
theorem c1_scoping_witness :
    hit7 ∈ ChromaManager.search scopeStore [0] (some 7) 5 ∧ hit7.patient_id = 7 :=
  ⟨by decide, c1_scoping scopeStore [0] 7 5 (by decide) hit7 (by decide)⟩

/-- Claim C8, counterexample: `MilvusManager.search` returns raw L2 distances
(`hit.distance`) without inverting or negating them, in Milvus's
ascending-distance order; the returned candidate list is therefore not sorted
descending in its reported score, contradicting the claim that raw distance
metrics are always inverted so that descending means best-first. -/
theorem c8_counterexample :
    (MilvusManager.search mStore [0] 2).map (fun h => h.distance) = [1, 4] ∧
    ¬ (MilvusManager.search mStore [0] 2).Pairwise (fun x y => y.distance ≤ x.distance) := by
  constructor
  · rfl
  · decide

/-- Claim C8 (amended): `ChromaManager.search` converts each raw distance to
the similarity `1 - distance` and sorts descending, so its output is
best-first in the reported score; `MilvusManager.search` keeps the raw L2
distances and returns them ascending (best-first in the raw metric, with no
inversion). -/
theorem c8_search_order :
    (∀ (store : List ChromaRecord) (qv : List Int) (patientId : Option Int) (topK : Nat),
      (ChromaManager.search store qv patientId topK).Pairwise
        (fun x y => y.distance ≤ x.distance)) ∧
    (∀ (store : List MilvusRecord) (qv : List Int) (topK : Nat),
      (MilvusManager.search store qv topK).Pairwise
        (fun x y => x.distance ≤ y.distance)) :=
  ⟨chromaSearch_sorted, milvusSearch_sorted⟩

/-- Claim C9: the list returned by `RAGManager.retrieve_relevant_notes` (when
it returns at all) has length at most `top_k` — the final
`filtered_results[:top_k]` truncates. -/
theorem c9_truncation (embed : String → List Int) (ner : String → Except Unit (List MedEntity))
    (store : List ChromaRecord) (userQuery : String) (patientId : Int) (topK : Nat)
    (l : List RankedHit)
    (h : RAGManager.retrieve_relevant_notes embed ner store userQuery patientId topK = .ok l) :
    l.length ≤ topK := by
  simp only [RAGManager.retrieve_relevant_notes] at h
  split at h
  · exact absurd h (by simp)
  · split at h
    · exact absurd h (by simp)
    · obtain rfl : _ = l := by simpa using h
      exact List.length_take_le _ _

/-- Witness for C9 at `top_k = 1` over the two-candidate spec-scenario store. -/
theorem c9_truncation_witness :
    [(⟨hitB, ["text", "entities"]⟩ : RankedHit)].length ≤ 1 :=
  c9_truncation exEmbed exNer exStore "chest pain medication" 123 1
    [⟨hitB, ["text", "entities"]⟩] rfl

/-- Claim C10: with `max_length ≥ 1`, `chunk_text` terminates on every text
(the fuel `len(text) + 1` always suffices, because the loop's start index
strictly increases), and every chunk it returns is non-empty with length at
most `max_length`; with `max_length = 0` the loop makes no progress, so no
amount of fuel suffices even on the one-character text `"a"`. -/
theorem c10_chunk_total :
    (∀ (text : List Char) (maxLength : Nat), 1 ≤ maxLength →
      ∃ cs, chunk_text text maxLength = some cs ∧
        ∀ p ∈ cs, p.1 ≠ [] ∧ p.1.length ≤ maxLength) ∧
    (∀ fuel, chunkTextGo 0 ['a'] fuel 0 = none) :=
  ⟨fun text maxLength hml =>
    chunkTextGo_total hml text (text.length + 1) 0 (by omega),
   chunkTextGo_zero_fuel⟩

/-- Witness for C10: `"ab"` at `max_length = 1` chunks successfully. -/
theorem c10_chunk_total_witness :
    ∃ cs, chunk_text ['a', 'b'] 1 = some cs ∧
      ∀ p ∈ cs, p.1 ≠ [] ∧ p.1.length ≤ 1 :=
  c10_chunk_total.1 ['a', 'b'] 1 (by decide)

/-- Claim C2: the overlap filter is a no-op, because
`set(query_entities.keys()) & set(note_entities.keys())` intersects the
top-level keys of the two `/extract_entities` JSON responses — always exactly
`{"text", "entities"}` — instead of the extracted entities.  On the spec's
end-to-end scenario (query entities {chest pain, aspirin}; noteA with the same
entities; noteB with the disjoint entity set {diabetes} but higher vector
similarity) the code therefore returns both notes, noteB ranked first, where
the claim requires `[noteA]` with noteB excluded. -/
theorem c2_overlap_filter_bug :
    (RAGManager.retrieve_relevant_notes exEmbed exNer exStore
        "chest pain medication" 123 5) =
      .ok [⟨hitB, ["text", "entities"]⟩, ⟨hitA, ["text", "entities"]⟩] ∧
    specEntityOverlap [entChestPain, entAspirin] [entDiabetes] = [] := by
  exact ⟨rfl, rfl⟩

/-- Claim C3: no normalized entity identity enters the overlap at all.  The
overlap computed by `retrieve_relevant_notes` is the intersection of the
responses' top-level JSON keys, constantly `["text", "entities"]`: with query
entity "Aspirin" and candidate entity "diabetes" — disjoint under the
specified lower-cased-canonical-name normalization (`specEntityOverlap`) —
the code still computes the non-empty overlap `["text", "entities"]`.
(Under the specified normalization, "Aspirin" and "aspirin" would coincide,
third conjunct; the code never consults entity names, casing or codes.) -/
theorem c3_normalization_bug :
    (RAGManager.retrieve_relevant_notes c3Embed c3Ner [noteC] "aspirin please" 5 5) =
      .ok [⟨hitC, ["text", "entities"]⟩] ∧
    specEntityOverlap [entAspirinCap] [entDiabetesPlain] = [] ∧
    specEntityOverlap [entAspirinCap] [entAspirinLower] = ["aspirin"] := by
  exact ⟨rfl, rfl, rfl⟩

/-- Claim C4: whenever `RAGManager.retrieve_relevant_notes` returns a list, it
is ordered by overlap size (`len(matching_entities)`) descending with ties in
the original similarity score descending — the final `list.sort` is stable
and its input inherits `ChromaManager.search`'s similarity-descending order —
and the operation is deterministic (it is a function of its inputs; the model
fixes the only nondeterminism in the source, Python's set iteration order
inside `matching_entities`, which never influences the candidate ordering). -/
theorem c4_rank_order (embed : String → List Int)
    (ner : String → Except Unit (List MedEntity)) (store : List ChromaRecord)
    (userQuery : String) (patientId : Int) (topK : Nat) (l : List RankedHit)
    (h : RAGManager.retrieve_relevant_notes embed ner store userQuery patientId topK = .ok l) :
    l.Pairwise (fun a b => b.matching_entities.length ≤ a.matching_entities.length ∧
      (a.matching_entities.length = b.matching_entities.length →
        b.hit.distance ≤ a.hit.distance)) ∧
    RAGManager.retrieve_relevant_notes embed ner store userQuery patientId topK =
      RAGManager.retrieve_relevant_notes embed ner store userQuery patientId topK := by
  refine ⟨?_, rfl⟩
  simp only [RAGManager.retrieve_relevant_notes] at h
  split at h
  · exact absurd h (by simp)
  · split at h
    · exact absurd h (by simp)
    · next filtered hfil =>
      obtain rfl : _ = l := by simpa using h
      have hbase := chromaSearch_sorted store (embed userQuery) (some patientId) topK
      have hfiltered := ragFilterNotes_pairwise hbase hfil
      have hlex := lex_stableSortLe (fun x : RankedHit => x.matching_entities.length)
        (fun x : RankedHit => x.hit.distance) hfiltered
      refine List.Pairwise.imp ?_ (hlex.sublist (List.take_sublist _ _))
      rintro a b (hlt | ⟨heq, hle⟩)
      · exact ⟨Nat.le_of_lt hlt, fun he => absurd he (ne_of_gt hlt)⟩
      · exact ⟨Nat.le_of_eq heq.symm, fun _ => hle⟩

/-- Witness for C4 on the spec scenario: the returned list (noteB then noteA,
equal overlap sizes, similarity descending) satisfies the ranking order. -/
theorem c4_rank_order_witness :
    ([⟨hitB, ["text", "entities"]⟩, ⟨hitA, ["text", "entities"]⟩] : List RankedHit).Pairwise
      (fun a b => b.matching_entities.length ≤ a.matching_entities.length ∧
        (a.matching_entities.length = b.matching_entities.length →
          b.hit.distance ≤ a.hit.distance)) :=
  (c4_rank_order exEmbed exNer exStore "chest pain medication" 123 5
    [⟨hitB, ["text", "entities"]⟩, ⟨hitA, ["text", "entities"]⟩] rfl).1

/-- Claim C5: offset reconciliation is exact.  Every `(chunk, offset)` pair
produced by `chunk_text` satisfies `text[offset : offset + len(chunk)] = chunk`,
and consequently any chunk-local span `[ls, le)` within the chunk denotes,
after shifting by the chunk's offset (exactly what `perform_ner` does with
`result["start"] + offset` / `result["end"] + offset`), the same characters in
the original text — no off-by-one drift, in the second chunk or any other. -/
theorem c5_offset_reconciliation :
    (∀ (text : List Char) (maxLength : Nat), 1 ≤ maxLength →
      ∀ cs, chunk_text text maxLength = some cs →
        ∀ p ∈ cs, pySlice p.2 (p.2 + p.1.length) text = p.1 ∧
          ∀ ls le₂, le₂ ≤ p.1.length →
            pySlice (p.2 + ls) (p.2 + le₂) text = pySlice ls le₂ p.1) ∧
    (∀ (pipe : List Char → List NerSpan) (text : List Char) (out : List NerSpan),
      perform_ner pipe text = some out →
      ∀ s ∈ out, ∃ cs, chunk_text text 512 = some cs ∧
        ∃ p ∈ cs, ∃ r ∈ pipe p.1,
          s.start = r.start + p.2 ∧ s.«end» = r.«end» + p.2 ∧
          (r.«end» ≤ p.1.length →
            pySlice s.start s.«end» text = pySlice r.start r.«end» p.1)) := by
  constructor
  · intro text maxLength _ cs hcs p hp
    have hexact := chunkTextGo_slices hcs p hp
    exact ⟨hexact, fun ls le₂ hle => pySlice_within hexact ls le₂ hle⟩
  · intro pipe text out hout s hs
    simp only [perform_ner] at hout
    split at hout
    · exact absurd hout (by simp)
    · next chunks hchunks =>
      obtain rfl : _ = out := by simpa using hout
      rw [List.mem_flatMap] at hs
      obtain ⟨p, hp, hs⟩ := hs
      rw [List.mem_map] at hs
      obtain ⟨r, hr, rfl⟩ := hs
      refine ⟨chunks, hchunks, p, hp, r, hr, rfl, rfl, ?_⟩
      intro hle
      have hexact := chunkTextGo_slices hchunks p hp
      have := pySlice_within hexact r.start r.«end» hle
      simpa [Nat.add_comm] using this

/-- Witness for C5: for `"ab"` chunked at `max_length = 1` the second chunk is
`("b", 1)`; the chunk-local span `[0, 1)` shifted by the chunk offset `1`
denotes `text[1:2] = "b"`, exactly the chunk-local characters; and
`perform_ner` shifts a pipeline span by its chunk's offset. -/
theorem c5_offset_reconciliation_witness :
    pySlice (1 + 0) (1 + 1) ['a', 'b'] = pySlice 0 1 ['b'] ∧
    pySlice 1 (1 + ([('b' : Char)] : List Char).length) ['a', 'b'] = ['b'] ∧
    ∃ cs, chunk_text ['a', 'b'] 512 = some cs ∧
      ∃ p ∈ cs, ∃ r ∈ pipeEx p.1,
        (⟨"Sign_symptom", "b", 1, 2, 1⟩ : NerSpan).start = r.start + p.2 ∧
        (⟨"Sign_symptom", "b", 1, 2, 1⟩ : NerSpan).«end» = r.«end» + p.2 ∧
        (r.«end» ≤ p.1.length →
          pySlice (⟨"Sign_symptom", "b", 1, 2, 1⟩ : NerSpan).start
            (⟨"Sign_symptom", "b", 1, 2, 1⟩ : NerSpan).«end» ['a', 'b'] =
            pySlice r.start r.«end» p.1) := by
  have h1 := c5_offset_reconciliation.1 ['a', 'b'] 1 (by decide)
    [(['a'], 0), (['b'], 1)] (by decide) (['b'], 1) (by decide)
  have h2 := c5_offset_reconciliation.2 pipeEx ['a', 'b']
    [⟨"Sign_symptom", "b", 1, 2, 1⟩] (by decide) ⟨"Sign_symptom", "b", 1, 2, 1⟩ (by decide)
  exact ⟨h1.2 0 1 (by decide), h1.1, h2⟩

/-- Claim C6, counterexample: the retrieval does not degrade gracefully.  When
the NER service fails on a single candidate (noteB) while the query and the
other candidate (noteA) extract fine, `retrieve_relevant_notes` raises (the
`httpx` error from `raise_for_status` propagates out of the loop) instead of
returning a ranked result built from the remaining candidates. -/
theorem c6_counterexample :
    RAGManager.retrieve_relevant_notes exEmbed exNerFailB exStore
      "chest pain medication" 123 5 = .error () := rfl

/-- Claim C6 (amended): if entity extraction fails for any candidate returned
by the vector search, the whole retrieval call fails with that exception; no
partial ranked result is returned. -/
theorem c6_failure_propagates (embed : String → List Int)
    (ner : String → Except Unit (List MedEntity)) (store : List ChromaRecord)
    (userQuery : String) (patientId : Int) (topK : Nat)
    (h : ∃ r ∈ ChromaManager.search store (embed userQuery) (some patientId) topK,
      NERManager.extract_entities ner r.note_text = .error ()) :
    RAGManager.retrieve_relevant_notes embed ner store userQuery patientId topK =
      .error () := by
  simp only [RAGManager.retrieve_relevant_notes]
  split
  · rfl
  · split
    · rfl
    · next filtered hfil =>
      rw [ragFilterNotes_error h] at hfil
      exact absurd hfil (by simp)

/-- Witness for C6 (amended): the NER service failing on noteA's text makes
the whole call error. -/
theorem c6_failure_propagates_witness :
    RAGManager.retrieve_relevant_notes exEmbed exNerFailA exStore
      "chest pain medication" 123 5 = .error () :=
  c6_failure_propagates exEmbed exNerFailA exStore "chest pain medication" 123 5
    ⟨hitA, by decide, rfl⟩

/-- Claim C7: an empty result is a non-error outcome.  Provided the NER
service itself succeeds (its failure is claim C6's concern), the retrieval
always returns `.ok`; when the vector search yields zero candidates it
returns `.ok []`; and the module-level `retrieve_relevant_notes` returns the
search result unchanged — in particular `[]`, not an exception, when the
search is empty. -/
theorem c7_empty_result (embed : String → List Int)
    (ner : String → Except Unit (List MedEntity)) (store : List ChromaRecord)
    (userQuery : String) (patientId : Int) (topK : Nat)
    (hq : ∃ qs, ner userQuery = .ok qs)
    (hall : ∀ r ∈ ChromaManager.search store (embed userQuery) (some patientId) topK,
      ∃ es, ner r.note_text = .ok es) :
    (∃ l, RAGManager.retrieve_relevant_notes embed ner store userQuery patientId topK =
      .ok l) ∧
    (ChromaManager.search store (embed userQuery) (some patientId) topK = [] →
      RAGManager.retrieve_relevant_notes embed ner store userQuery patientId topK =
        .ok []) ∧
    retrieve_relevant_notes embed store userQuery patientId topK =
      ChromaManager.search store (embed userQuery) (some patientId) topK := by
  obtain ⟨qs, hqs⟩ := hq
  have hq' : NERManager.extract_entities ner userQuery =
      .ok (nerResponseJson userQuery qs) := by
    simp [NERManager.extract_entities, hqs]
  have hallX : ∀ r ∈ ChromaManager.search store (embed userQuery) (some patientId) topK,
      ∃ j, NERManager.extract_entities ner r.note_text = .ok j := by
    intro r hr
    obtain ⟨es, hes⟩ := hall r hr
    exact ⟨nerResponseJson r.note_text es, by simp [NERManager.extract_entities, hes]⟩
  obtain ⟨out, hout⟩ := ragFilterNotes_total
    (nerResponseJson userQuery qs).keys hallX
  refine ⟨⟨(stableSortLe
      (fun x y => decide (y.matching_entities.length ≤ x.matching_entities.length))
      out).take topK, ?_⟩, ?_, ?_⟩
  · simp only [RAGManager.retrieve_relevant_notes, hq', hout]
  · intro hempty
    rw [hempty] at hout
    have hout0 : out = [] := by
      simpa [ragFilterNotes] using hout
    subst hout0
    simp only [RAGManager.retrieve_relevant_notes, hq', hempty, hout]
    simp [stableSortLe]
  · simp only [retrieve_relevant_notes]
    split
    · next hempty => rw [List.isEmpty_iff.mp hempty]
    · rfl

/-- Witness for C7: over an empty store the search is empty and the retrieval
returns `.ok []` without raising. -/
theorem c7_empty_result_witness :
    RAGManager.retrieve_relevant_notes exEmbed exNer ([] : List ChromaRecord)
      "chest pain medication" 123 5 = .ok [] :=
  (c7_empty_result exEmbed exNer [] "chest pain medication" 123 5
    ⟨[entChestPain, entAspirin], rfl⟩
    (fun r hr =>
      absurd (show r ∈ ([] : List ChromaHit) from hr) (List.not_mem_nil r))).2.1 (by decide)

end Adrenaline
